import Mathlib

/-!
Verification development for the Rooms18gateApp repository: a family of small
Express file-sharing applications ("rooms" of uploaded files behind an 18+
interstitial, with an admin credential gating destructive operations).

The definitions below are a shallow embedding of the JavaScript source.
The filesystem under the data root is modelled as a finite association list
from room names to lists of directory entries; each request handler becomes a
pure function from the request data and the filesystem state to a response,
a new state, and the cookie effects it produces.

Variants are kept apart: the unnamed top-level definitions and the dispatcher
follow the first variant of src/app.js (the "Rooms18gate" cookie-admin app);
the namespaces Part000, Part001, Part003 and SrcSrc embed the routines of the
other source files that the claims cite.
-/

/-- Whitespace test of the JavaScript trim and whitespace regex class, on
the ASCII range the application feeds it. -/
def jsIsWs (c : Char) : Bool :=
  c == ' ' || c == '\t' || c == '\n' || c == '\r' || c == '\x0b' || c == '\x0c'

/-- Embeds the JavaScript String.prototype.trim call used by the source:
leading and trailing whitespace is removed. -/
def jsTrim (s : String) : String :=
  String.mk ((s.data.dropWhile jsIsWs).reverse.dropWhile jsIsWs).reverse

/-- Lowercasing of one character as JavaScript toLowerCase acts on the
ASCII range (the only range the room regex can accept afterwards). -/
def jsToLowerChar (c : Char) : Char :=
  if 'A' ≤ c ∧ c ≤ 'Z' then Char.ofNat (c.toNat + 32) else c

/-- Embeds the JavaScript String.prototype.toLowerCase call. -/
def jsToLower (s : String) : String := String.mk (s.data.map jsToLowerChar)

/-- Embeds the test of the room-name regex of src/app.js line 29, namely
lowercase letters, digits and dashes, length between 1 and 40. -/
def roomPatOk (s : String) : Bool :=
  decide (1 ≤ s.data.length) && decide (s.data.length ≤ 40) &&
    s.data.all (fun c => c.isLower || c.isDigit || c == '-')

/-- Embeds sanitizeRoom of src/app.js lines 26-30: trim, lowercase, then
return the string if it matches the room pattern and the empty string
otherwise.  Non-string inputs (which the source maps to the empty string)
are outside the model. -/
def sanitizeRoom (s : String) : String :=
  let t := jsToLower (jsTrim s)
  if roomPatOk t then t else ""

/-- Embeds the Node path.basename function on posix paths as the source uses
it: trailing slashes are dropped and the last slash-separated segment is
returned. -/
def jsBasename (s : String) : String :=
  let rev := s.data.reverse.dropWhile (fun c => c == '/')
  String.mk (rev.takeWhile (fun c => !(c == '/'))).reverse

/-- Character class kept by the safeBase helper of src/src/app.js line 28,
namely the regex class of word characters, dots and dashes. -/
def safeChar (c : Char) : Bool :=
  c.isAlpha || c.isDigit || c == '_' || c == '.' || c == '-'

/-- Embeds safeBase of src/src/app.js line 28: take the basename and replace
every character outside the safe class by an underscore. -/
def safeBase (s : String) : String :=
  String.mk ((jsBasename s).data.map (fun c => if safeChar c then c else '_'))

/-- Embeds the room-name regex test of src/unnamed/part_003 line 100 and
line 304 (isValidRoom), which is applied without trimming or lowercasing. -/
def isValidRoom (s : String) : Bool := roomPatOk s

/-- Splits a string into its nonempty slash-separated segments; the helper
walks the character list with the current segment accumulated in reverse. -/
def splitSegsAux : List Char → List Char → List String
  | [], cur => if cur.isEmpty then [] else [String.mk cur.reverse]
  | c :: rest, cur =>
    if c == '/' then
      if cur.isEmpty then splitSegsAux rest []
      else String.mk cur.reverse :: splitSegsAux rest []
    else splitSegsAux rest (c :: cur)

/-- Slash-splitting entry point used to model path joining. -/
def splitSlash (s : String) : List String := splitSegsAux s.data []

/-- Embeds the lexical path normalization performed by Node path.join on the
segments below the data root: a dot segment is dropped, a dot-dot segment
pops the last kept segment or, when none is left, climbs one level above the
root (counted in the first component). -/
def normWalk : List String → Nat → List String → Nat × List String
  | [], up, acc => (up, acc.reverse)
  | s :: rest, up, acc =>
    if s = "." then normWalk rest up acc
    else if s = ".." then
      match acc with
      | [] => normWalk rest (up + 1) []
      | _ :: more => normWalk rest up more
    else normWalk rest up (s :: acc)

/-- Resolves a relative segment list against an absolute root (given as its
own segment list), as Node path.join does lexically. -/
def resolveFrom (root : List String) (segs : List String) : List String :=
  let w := normWalk segs 0 []
  root.take (root.length - w.1) ++ w.2

/-- Decides whether the first segment list leads the second, i.e. the second
path lies at or below the first.  This is the formal reading of the phrase
that the resolved path has the data root as an ancestor. -/
def rootedUnder : List String → List String → Bool
  | [], _ => true
  | _ :: _, [] => false
  | a :: more, b :: rest => a == b && rootedUnder more rest

/-- Segment list joined by the file-serving, download and delete routes of
src/app.js (lines 248-267): the room parameter goes through sanitizeRoom and
the name parameter is reduced to its basename before joining. -/
def mainServeSegs (room name : String) : List String :=
  splitSlash (sanitizeRoom room) ++ splitSlash (jsBasename name)

/-- Segment list joined by the file route of src/unnamed/part_003 lines
435-439 (and lines 192-196): both request parameters are joined raw, with no
basename reduction and no sanitizer. -/
def part003ServeSegs (room name : String) : List String :=
  splitSlash room ++ splitSlash name

/-- Checks that the string leads with the given literal, character by
character; embeds the String.prototype.startsWith calls of the age-gate
middleware. -/
def leadChars : List Char → List Char → Bool
  | _, [] => true
  | [], _ :: _ => false
  | c :: cs, p :: ps => c == p && leadChars cs ps

/-- String front-matching built on leadChars. -/
def strHasLead (s pre : String) : Bool := leadChars s.data pre.data

/-- Hexadecimal digit character for percent-encoding (uppercase letters as
encodeURIComponent produces). -/
def hexDigitChar (n : Nat) : Char :=
  if n < 10 then Char.ofNat (48 + n) else Char.ofNat (55 + n)

/-- Characters that JavaScript encodeURIComponent leaves unescaped. -/
def uriUnreserved (c : Char) : Bool :=
  c.isAlpha || c.isDigit || c == '-' || c == '_' || c == '.' || c == '!' ||
    c == '~' || c == '*' || c == Char.ofNat 39 || c == '(' || c == ')'

/-- Percent-encoding of one character (the model covers the one-byte range,
which is all the sources feed it). -/
def uriEncChar (c : Char) : List Char :=
  if uriUnreserved c then [c]
  else ['%', hexDigitChar (c.toNat / 16 % 16), hexDigitChar (c.toNat % 16)]

/-- Embeds JavaScript encodeURIComponent as the sources use it on room and
file names. -/
def uriEncode (s : String) : String :=
  String.mk (s.data.foldr (fun c acc => uriEncChar c ++ acc) [])

/-- Extension of a file name (the part after the last dot of the basename),
when there is one. -/
def extOf (s : String) : Option String :=
  let b := (jsBasename s).data
  let revExt := b.reverse.takeWhile (fun c => !(c == '.'))
  if revExt.length == b.length then none else some (String.mk revExt.reverse)

/-- Modelled abstraction of the mime-types lookup call the sources make: an
extension-driven table for a representative set of types, returning none for
unknown or missing extensions exactly as the library returns false. -/
def mimeLookup (name : String) : Option String :=
  match extOf name with
  | none => none
  | some e =>
    let l := jsToLower e
    if l = "jpg" || l = "jpeg" then some "image/jpeg"
    else if l = "png" then some "image/png"
    else if l = "gif" then some "image/gif"
    else if l = "webp" then some "image/webp"
    else if l = "mp4" then some "video/mp4"
    else if l = "pdf" then some "application/pdf"
    else if l = "txt" then some "text/plain"
    else none

/-- MIME type with the octet-stream fallback, as every listFiles variant
computes it. -/
def mimeOf (name : String) : String :=
  (mimeLookup name).getD "application/octet-stream"

/-- Directory entry inside a room directory: its name, whether it is a
regular file (as opposed to a subdirectory), and the size and modification
time its stat call reports. -/
structure FEntry where
  name : String
  isFile : Bool
  size : Nat
  mtime : Nat
deriving DecidableEq

/-- File metadata record produced by the listFiles helpers. -/
structure FileMeta where
  name : String
  size : Nat
  mtime : Nat
  mime : String
deriving DecidableEq

/-- State of the filesystem tree under the data root: the rooms (immediate
subdirectories) with their entries. -/
structure FsState where
  rooms : List (String × List FEntry)
deriving DecidableEq

/-- Existence check for a room directory, as fs.existsSync on the room path
reports it. -/
def FsState.hasRoom (st : FsState) (r : String) : Bool :=
  st.rooms.any (fun p => p.1 == r)

/-- Entries of a room directory; an absent room reads as empty. -/
def FsState.filesOf (st : FsState) (r : String) : List FEntry :=
  ((st.rooms.find? (fun p => p.1 == r)).map (fun p => p.2)).getD []

/-- Embeds a recursive mkdir of a room directory: a no-op when the room
already exists. -/
def FsState.mkRoom (st : FsState) (r : String) : FsState :=
  if st.hasRoom r then st else ⟨st.rooms ++ [(r, [])]⟩

/-- Embeds fs.unlink on a file path inside a room with errors swallowed: the
matching regular-file entry disappears; a missing file or a directory entry
of that name (whose unlink fails) leaves the state unchanged. -/
def FsState.removeFile (st : FsState) (r n : String) : FsState :=
  ⟨st.rooms.map (fun p =>
    if p.1 == r then (p.1, p.2.filter (fun e => !(e.name == n && e.isFile)))
    else p)⟩

/-- Embeds a recursive forced rm of a room directory. -/
def FsState.removeRoom (st : FsState) (r : String) : FsState :=
  ⟨st.rooms.filter (fun p => !(p.1 == r))⟩

/-- Appends a freshly written upload to a room directory. -/
def FsState.addFile (st : FsState) (r : String) (e : FEntry) : FsState :=
  ⟨st.rooms.map (fun p => if p.1 == r then (p.1, p.2 ++ [e]) else p)⟩

/-- Well-formedness of a state: room directory names are distinct, as they
are on a real filesystem. -/
def FsState.wf (st : FsState) : Prop :=
  (st.rooms.map (fun p => p.1)).Nodup

instance (st : FsState) : Decidable st.wf := by
  unfold FsState.wf
  exact List.nodupDecidable _

/-- Newest-first comparison used by every listFiles variant (the comparator
subtracting modification times). -/
def mtimeGe (a b : FileMeta) : Prop := b.mtime ≤ a.mtime

instance : DecidableRel mtimeGe := fun a b => Nat.decLe b.mtime a.mtime

instance : IsTotal FileMeta mtimeGe :=
  ⟨fun a b => Nat.le_total b.mtime a.mtime⟩

instance : IsTrans FileMeta mtimeGe :=
  ⟨fun _ _ _ hab hbc => Nat.le_trans hbc hab⟩

/-- Sorting of metadata newest first, modelling the Array.prototype.sort
call with the mtime-difference comparator. -/
def sortByMtimeDesc (l : List FileMeta) : List FileMeta :=
  List.insertionSort mtimeGe l

/-- Metadata record built for one entry by listFiles of src/app.js. -/
def metaOf (e : FEntry) : FileMeta :=
  ⟨e.name, e.size, e.mtime, mimeOf e.name⟩

/-- Embeds listFiles of src/app.js lines 44-57: read the room directory
(an absent directory reads as the empty list through the catch), keep the
regular files, stat each and sort newest first. -/
def listFiles (st : FsState) (room : String) : List FileMeta :=
  match st.rooms.find? (fun p => p.1 == room) with
  | none => []
  | some p => sortByMtimeDesc ((p.2.filter (fun e => e.isFile)).map metaOf)

/-- Lexicographic string comparison on character lists, modelling the
default JavaScript sort on names. -/
def strLeb : List Char → List Char → Bool
  | [], _ => true
  | _ :: _, [] => false
  | a :: more, b :: rest => if a == b then strLeb more rest else decide (a < b)

/-- Sorted list of strings, as the default sort call produces. -/
def sortStrings (l : List String) : List String :=
  List.insertionSort (fun a b => strLeb a.data b.data = true) l

/-- Embeds listRooms of src/app.js lines 39-43: the room directory names,
sorted. -/
def listRooms (st : FsState) : List String :=
  sortStrings (st.rooms.map (fun p => p.1))

/-- Server configuration: the single admin secret (the ADMIN_PASS
environment value). -/
structure Config where
  adminPass : String
deriving DecidableEq

/-- Cookie effects a response may carry: setting or clearing the per-room
age cookie, and setting or clearing the admin capability cookie. -/
structure Effects where
  ageSet : Option String
  ageCleared : Option String
  adminSet : Bool
  adminCleared : Bool
deriving DecidableEq

/-- Response with no cookie effects. -/
def noFx : Effects := ⟨none, none, false, false⟩

/-- Effects of the age-confirmation route: the age cookie of the given room
is set to the confirmed value. -/
def ageSetFx (r : String) : Effects := ⟨some r, none, false, false⟩

/-- Effects of the debug route clearing a room age cookie. -/
def ageClearFx (r : String) : Effects := ⟨none, some r, false, false⟩

/-- Effects of a successful admin login (setAdmin). -/
def adminSetFx : Effects := ⟨none, none, true, false⟩

/-- Effects of the admin logout (clearAdmin). -/
def adminClearFx : Effects := ⟨none, none, false, true⟩

/-- Page bodies the server renders, kept at the level of detail the claims
need. -/
inductive Body where
  | homePage (rooms : List String) (admin : Bool)
  | managePage (rooms : List String)
  | adminLoginPage (errMsg : String)
  | agePage (room : String)
  | roomPage (room : String) (files : List FileMeta) (admin : Bool)
  | fileBody (room name : String)
  | text (s : String)
deriving DecidableEq

/-- Responses: a redirect, a rendered body, or an error status with its
message. -/
inductive Resp where
  | redirect (loc : String)
  | ok (body : Body)
  | err (code : Nat) (msg : String)
deriving DecidableEq

/-- Decides whether a response is an HTTP redirect. -/
def Resp.isRedirect : Resp → Bool
  | .redirect _ => true
  | _ => false

/-- Routes of the src/app.js application with the request data each handler
reads.  The upload route carries the stored entry (whose generated name
stands for the time-and-nonce name the source generates) when a multipart
file part is present. -/
inductive Route where
  | home
  | adminPage
  | adminLogin (pass : String)
  | adminLogout
  | manage
  | createRoom (body : String)
  | roomPage (room : String)
  | ageOk (room : String)
  | uploadFile (room : String) (file : Option FEntry)
  | serveFile (room name : String)
  | downloadFile (room name : String)
  | deleteFile (room name : String)
  | deleteRoom (room : String) (confirmField : Option String)
  | debugClearAge (room : String)
deriving DecidableEq

/-- Request: a route together with the cookies presented. -/
structure Request where
  route : Route
  cookies : List (String × String)
deriving DecidableEq

/-- Cookie lookup by name. -/
def cookieVal (cs : List (String × String)) (k : String) : Option String :=
  ((cs.find? (fun p => p.1 == k)).map (fun p => p.2))

/-- Embeds isAdminReq of src/app.js line 33 (and the identical helper of
src/unnamed/part_000 line 32): the request is admin exactly when its admin
cookie equals the constant string of value one. -/
def isAdminReq (cs : List (String × String)) : Bool :=
  cookieVal cs "admin" == some "1"

/-- Name of the per-room age cookie (the AGE_PREFIX helper). -/
def ageCookieName (r : String) : String := "age_ok_" ++ r

/-- Routes whose handler reads the configured admin secret: only the admin
login route compares a submitted password against it. -/
def routeReadsSecret : Route → Bool
  | .adminLogin _ => true
  | _ => false

/-- Kind of filesystem node a joined path points at. -/
inductive Node where
  | missing
  | dirNode
  | fileNode
deriving DecidableEq

/-- Looks up the node at a normalized path below the data root.  A path that
climbs above the data root lands in the application directory, which exists
as a directory; deeper paths than room slash name are never produced by the
handlers that use this lookup. -/
def lookupNode (st : FsState) (w : Nat × List String) : Node :=
  if w.1 > 0 then Node.dirNode
  else
    match w.2 with
    | [] => Node.dirNode
    | [r] => if st.hasRoom r then Node.dirNode else Node.missing
    | [r, n] =>
      match (st.filesOf r).find? (fun e => e.name == n) with
      | some e => if e.isFile then Node.fileNode else Node.dirNode
      | none => Node.missing
    | _ => Node.missing

/-- Dispatcher of the src/app.js application (lines 193-283): one branch per
route, each translated from its handler.  The result is the response, the
filesystem state after the handler ran, and the cookie effects set on the
response. -/
def handle (cfg : Config) (req : Request) (st : FsState) :
    Resp × FsState × Effects :=
  match req.route with
  | .home => (.ok (.homePage (listRooms st) (isAdminReq req.cookies)), st, noFx)
  | .adminPage =>
    if isAdminReq req.cookies then (.redirect "/", st, noFx)
    else (.ok (.adminLoginPage ""), st, noFx)
  | .adminLogin pass =>
    if jsTrim pass ≠ cfg.adminPass then (.err 401 "Wrong password", st, noFx)
    else (.redirect "/", st, adminSetFx)
  | .adminLogout => (.redirect "/", st, adminClearFx)
  | .manage =>
    if !isAdminReq req.cookies then (.err 403 "admin only", st, noFx)
    else (.ok (.managePage (listRooms st)), st, noFx)
  | .createRoom body =>
    if !isAdminReq req.cookies then (.err 403 "admin only", st, noFx)
    else
      let room := sanitizeRoom body
      if room = "" then (.err 400 "bad room", st, noFx)
      else (.redirect ("/r/" ++ room), st.mkRoom room, noFx)
  | .roomPage roomParam =>
    let room := sanitizeRoom roomParam
    if room = "" || !st.hasRoom room then (.err 404 "not found", st, noFx)
    else if !(cookieVal req.cookies (ageCookieName room) == some "1") then
      (.ok (.agePage room), st, noFx)
    else
      (.ok (.roomPage room (listFiles st room) (isAdminReq req.cookies)), st, noFx)
  | .ageOk roomParam =>
    let room := sanitizeRoom roomParam
    (.redirect ("/r/" ++ room), st, ageSetFx room)
  | .uploadFile roomParam file =>
    match file with
    | none => (.redirect ("/r/" ++ sanitizeRoom roomParam), st, noFx)
    | some e =>
      let room := sanitizeRoom roomParam
      if room = "" then (.err 500 "bad room", st, noFx)
      else (.redirect ("/r/" ++ room), (st.mkRoom room).addFile room e, noFx)
  | .serveFile roomParam nameParam =>
    let room := sanitizeRoom roomParam
    let name := jsBasename nameParam
    match lookupNode st (normWalk (splitSlash room ++ splitSlash name) 0 []) with
    | .missing => (.err 404 "not found", st, noFx)
    | .dirNode => (.err 500 "stream error", st, noFx)
    | .fileNode => (.ok (.fileBody room name), st, noFx)
  | .downloadFile roomParam nameParam =>
    let room := sanitizeRoom roomParam
    let name := jsBasename nameParam
    match lookupNode st (normWalk (splitSlash room ++ splitSlash name) 0 []) with
    | .fileNode => (.ok (.fileBody room name), st, noFx)
    | _ => (.err 500 "download error", st, noFx)
  | .deleteFile roomParam nameParam =>
    if !isAdminReq req.cookies then (.err 403 "admin only", st, noFx)
    else
      let room := sanitizeRoom roomParam
      let name := jsBasename nameParam
      (.redirect ("/r/" ++ room), st.removeFile room name, noFx)
  | .deleteRoom roomParam confirmField =>
    if !isAdminReq req.cookies then (.err 403 "admin only", st, noFx)
    else
      let room := sanitizeRoom roomParam
      let typed := jsTrim (confirmField.getD "")
      if typed ≠ room then (.err 400 "confirmation mismatch", st, noFx)
      else
        (.redirect "/manage",
         (if room = "" then ⟨[]⟩ else st.removeRoom room : FsState), noFx)
  | .debugClearAge roomParam =>
    let room := sanitizeRoom roomParam
    (.ok (.text ("Cleared age cookie for " ++ room)), st, ageClearFx room)

namespace Part000

/-- Collapses every maximal whitespace run into one dash, embedding the
whitespace replacement step of the part_000 sanitizer. -/
def squashWsAux : List Char → Bool → List Char
  | [], _ => []
  | c :: rest, inWs =>
    if jsIsWs c then
      if inWs then squashWsAux rest true else '-' :: squashWsAux rest true
    else c :: squashWsAux rest false

/-- Embeds sanitizeRoom of src/unnamed/part_000 lines 33-39: lowercase,
trim, turn whitespace runs into dashes, drop every character outside the
allowed class, and truncate to forty characters.  Unlike the src/app.js
sanitizer it repairs instead of rejecting. -/
def sanitizeRoom (s : String) : String :=
  let t := jsTrim (jsToLower s)
  let u := squashWsAux t.data false
  let v := u.filter (fun c => c.isLower || c.isDigit || c == '-')
  String.mk (v.take 40)

/-- Embeds listFiles of src/unnamed/part_000 lines 50-71: an absent room
directory reads as empty, and otherwise every directory entry is statted and
mapped to its metadata — there is no regular-file filter — before the
newest-first sort. -/
def listFiles (st : FsState) (room : String) : List FileMeta :=
  match st.rooms.find? (fun p => p.1 == room) with
  | none => []
  | some p => sortByMtimeDesc (p.2.map metaOf)

/-- Embeds the room-deletion route of src/unnamed/part_000 lines 395-405:
admin cookie check, sanitize, reject an empty result, then remove the room
directory if it exists.  The request body confirmation field is received but
never compared to anything on the server (the typed-name check lives only in
the client script), which is why the parameter is unused. -/
def deleteRoomRoute (cookies : List (String × String)) (roomParam : String)
    (confirmField : Option String) (st : FsState) : Resp × FsState :=
  if !isAdminReq cookies then (.err 401 "admin-required", st)
  else
    let room := sanitizeRoom roomParam
    if room = "" then (.err 400 "bad-room", st)
    else
      let _ := confirmField
      (.ok (.text "ok"), if st.hasRoom room then st.removeRoom room else st)

end Part000

namespace Part001

/-- Embeds the upload route of src/unnamed/part_001 lines 175-180 together
with the multer destination of lines 33-45: with a file part present the
destination callback sanitizes the room, errors out on an empty result and
otherwise writes the generated file; the handler then re-sanitizes, rejects
a bad room or a missing file part with status 400, and redirects into the
room on success. -/
def uploadRoute (roomParam : String) (file : Option FEntry) (st : FsState) :
    Resp × FsState :=
  let room := sanitizeRoom roomParam
  match file with
  | none =>
    if room = "" then (.err 400 "bad room", st) else (.err 400 "no file", st)
  | some e =>
    if room = "" then (.err 500 "bad room", st)
    else (.redirect ("/r/" ++ uriEncode room), (st.mkRoom room).addFile room e)

end Part001

namespace Part003

/-- Metadata row built by the room page of src/unnamed/part_003 lines
136-141 for every directory entry (again with no regular-file filter and no
sort). -/
def filesView (st : FsState) (room : String) : List FileMeta :=
  (st.filesOf room).map metaOf

/-- Embeds the room page route of src/unnamed/part_003 lines 130-134: an
invalidly named room is a 404, and a validly named one has its directory
created on the spot before the listing renders. -/
def roomPageRoute (room : String) (st : FsState) : Resp × FsState :=
  if isValidRoom room then
    let st2 := st.mkRoom room
    (.ok (.roomPage room (filesView st2 room) false), st2)
  else (.err 404 "Room not found", st)

end Part003

namespace SrcSrc

/-- Embeds the age-gate middleware of src/src/app.js lines 64-77: raw-file
and age routes pass through, a confirmed age cookie passes through, and an
unconfirmed request to a room path is answered with a redirect to the age
interstitial carrying the original URL; every other path passes through.
The returned option is the redirect location when the middleware intercepts
the request. -/
def ageGate (reqPath origUrl : String) (cookies : List (String × String)) :
    Option String :=
  if strHasLead reqPath "/raw/" || strHasLead reqPath "/age" then none
  else
    let ageOK := cookieVal cookies "age_ok" == some "1"
    if strHasLead reqPath "/room/" && !ageOK then
      some ("/age?redirect=" ++ uriEncode origUrl)
    else none

/-- Embeds the delete route of src/src/app.js lines 233-245: the query
credential must equal the configured secret, both parameters go through
safeBase, the unlink error is swallowed, and the response redirects back
into the room with the admin query attached. -/
def deleteFileRoute (cfg : Config) (queryAdmin : Option String)
    (roomParam nameParam : String) (st : FsState) : Resp × FsState :=
  if queryAdmin.getD "" ≠ cfg.adminPass then (.err 403 "Forbidden", st)
  else
    let room := safeBase roomParam
    let name := safeBase nameParam
    (.redirect ("/room/" ++ uriEncode room ++ "?admin=" ++ uriEncode cfg.adminPass),
     st.removeFile room name)

/-- Metadata rows of the src/src/app.js room page, sorted newest first
(lines 151-152 stat every entry in the comparator). -/
def filesView (st : FsState) (room : String) : List FileMeta :=
  sortByMtimeDesc ((st.filesOf room).map metaOf)

/-- Embeds the room page route of src/src/app.js lines 143-149: the room
parameter goes through safeBase, an empty result redirects home, and
otherwise the room directory is created on the spot before the listing
renders. -/
def roomPageRoute (roomParam : String) (admin : Bool) (st : FsState) :
    Resp × FsState :=
  let room := safeBase roomParam
  if room = "" then (.redirect "/", st)
  else
    let st2 := st.mkRoom room
    (.ok (.roomPage room (filesView st2 room) admin), st2)

end SrcSrc

theorem filter_self_idem (p : α → Bool) (l : List α) :
    (l.filter p).filter p = l.filter p := by
  rw [List.filter_filter]
  exact List.filter_congr (fun a _ => Bool.and_self (p a))

theorem FsState.removeFile_idem (st : FsState) (r n : String) :
    (st.removeFile r n).removeFile r n = st.removeFile r n := by
  unfold FsState.removeFile
  simp only [FsState.mk.injEq, List.map_map]
  apply List.map_congr_left
  intro p _
  by_cases hp : p.1 = r
  · simp [Function.comp, hp, filter_self_idem]
  · simp [Function.comp, hp]

theorem assocFindOfMem {l : List (String × List FEntry)} {r : String}
    (hnd : (l.map (fun p => p.1)).Nodup) {p : String × List FEntry}
    (hp : p ∈ l) (hr : p.1 = r) : l.find? (fun q => q.1 == r) = some p := by
  induction l with
  | nil => cases hp
  | cons a t ih =>
    by_cases ha : a.1 = r
    · rcases List.mem_cons.mp hp with h | h
      · subst h
        exact List.find?_cons_of_pos _ (by simp [ha])
      · exact absurd (List.mem_map.mpr ⟨p, h, hr.trans ha.symm⟩)
          (List.nodup_cons.mp hnd).1
    · have hpt : p ∈ t := by
        rcases List.mem_cons.mp hp with h | h
        · exact absurd (h ▸ hr) ha
        · exact h
      rw [List.find?_cons_of_neg _ (by simp [ha])]
      exact ih (List.nodup_cons.mp hnd).2 hpt

theorem FsState.removeFile_absent (st : FsState) (r n : String) (hwf : st.wf)
    (h : ∀ e ∈ st.filesOf r, ¬(e.name = n ∧ e.isFile = true)) :
    st.removeFile r n = st := by
  obtain ⟨rooms⟩ := st
  unfold FsState.removeFile
  simp only [FsState.mk.injEq]
  have step : ∀ p ∈ rooms,
      (if p.1 == r then (p.1, p.2.filter (fun e => !(e.name == n && e.isFile))) else p) = p := by
    intro p hp
    by_cases hk : p.1 = r
    · have hfind : rooms.find? (fun q => q.1 == r) = some p := assocFindOfMem hwf hp hk
      have hfiles : FsState.filesOf ⟨rooms⟩ r = p.2 := by
        simp [FsState.filesOf, hfind]
      have hall : ∀ e ∈ p.2, (!(e.name == n && e.isFile)) = true := by
        intro e he
        have hne := h e (by rw [hfiles]; exact he)
        by_cases hn : e.name = n
        · have : e.isFile = false := by
            cases hf : e.isFile
            · rfl
            · exact absurd ⟨hn, hf⟩ hne
          simp [hn, this]
        · simp [hn]
      have hc : (p.1 == r) = true := by simp [hk]
      rw [if_pos hc, List.filter_eq_self.mpr hall]
    · have hc : ¬((p.1 == r) = true) := by simp [hk]
      rw [if_neg hc]
  calc rooms.map (fun p => if p.1 == r then (p.1, p.2.filter (fun e => !(e.name == n && e.isFile))) else p)
      = rooms.map id := List.map_congr_left step
    _ = rooms := List.map_id rooms

theorem FsState.hasRoom_mkRoom (st : FsState) (r : String) :
    (st.mkRoom r).hasRoom r = true := by
  unfold FsState.mkRoom
  by_cases h : st.hasRoom r = true
  · simp [h]
  · rw [if_neg (by simpa using h)]
    simp [FsState.hasRoom, List.any_append]

theorem find?_none_of_hasRoom_false (st : FsState) (r : String)
    (h : st.hasRoom r = false) :
    st.rooms.find? (fun p => p.1 == r) = none := by
  rw [List.find?_eq_none]
  intro x hx
  have := List.any_eq_false.mp h x hx
  simpa using this

theorem leadChars_iff_append (p l : List Char) :
    leadChars l p = true ↔ ∃ t, l = p ++ t := by
  induction p generalizing l with
  | nil => simp [leadChars]
  | cons c ps ih =>
    cases l with
    | nil => simp [leadChars]
    | cons a ls =>
      simp only [leadChars, Bool.and_eq_true, beq_iff_eq, ih, List.cons_append,
        List.cons.injEq]
      constructor
      · rintro ⟨h1, t, h2⟩; exact ⟨t, h1, h2⟩
      · rintro ⟨t, h1, h2⟩; exact ⟨h1, t, h2⟩

theorem rootedUnder_append (root l : List String) :
    rootedUnder root (root ++ l) = true := by
  induction root with
  | nil => rfl
  | cons a more ih => simp [rootedUnder, ih]

theorem splitSegsAux_no_slash (l cur : List Char) (h : ∀ c ∈ l, ¬(c = '/')) :
    splitSegsAux l cur =
      if cur.reverse ++ l = [] then [] else [String.mk (cur.reverse ++ l)] := by
  revert h
  induction l generalizing cur with
  | nil =>
    intro h
    by_cases hc : cur = []
    · subst hc; simp [splitSegsAux]
    · simp [splitSegsAux, hc]
  | cons c rest ih =>
    intro h
    have hc : ¬((c == '/') = true) := by simp [h c (by simp)]
    simp only [splitSegsAux]
    rw [if_neg hc]
    rw [ih (c :: cur) (fun d hd => h d (by simp [hd]))]
    have harr : (c :: cur).reverse ++ rest = cur.reverse ++ (c :: rest) := by
      simp [List.reverse_cons, List.append_assoc]
    rw [harr]

theorem splitSlash_no_slash (s : String) (h : ∀ c ∈ s.data, ¬(c = '/'))
    (hne : s.data ≠ []) : splitSlash s = [s] := by
  unfold splitSlash
  rw [splitSegsAux_no_slash s.data [] h]
  simp [hne]

theorem jsBasename_no_slash (s : String) : ∀ c ∈ (jsBasename s).data, ¬(c = '/') := by
  intro c hc
  simp only [jsBasename] at hc
  have hmem := List.mem_reverse.mp hc
  have := List.mem_takeWhile_imp hmem
  simpa using this

theorem roomPatOk_spec (t : String) (h : roomPatOk t = true) :
    t.data ≠ [] ∧ ∀ c ∈ t.data, ¬(c = '/') ∧ ¬(c = '.') := by
  unfold roomPatOk at h
  simp only [Bool.and_eq_true, decide_eq_true_eq, List.all_eq_true] at h
  obtain ⟨⟨h1, _⟩, h3⟩ := h
  constructor
  · intro he
    rw [he] at h1
    simp at h1
  · intro c hc
    have hcls := h3 c hc
    constructor <;> rintro rfl <;> exact absurd hcls (by decide)

theorem sanitizeRoom_patOk (s : String) (h : sanitizeRoom s ≠ "") :
    roomPatOk (sanitizeRoom s) = true := by
  by_cases hp : roomPatOk (jsToLower (jsTrim s)) = true
  · simp [sanitizeRoom, hp]
  · exfalso
    apply h
    simp [sanitizeRoom, hp]

theorem roomPat_ne_dot (t : String) (h : roomPatOk t = true) :
    ¬(t = ".") ∧ ¬(t = "..") := by
  obtain ⟨_, hchars⟩ := roomPatOk_spec t h
  constructor <;> rintro rfl
  · exact (hchars '.' (by decide)).2 rfl
  · exact (hchars '.' (by decide)).2 rfl

theorem rootedUnder_self (root : List String) : rootedUnder root root = true := by
  have := rootedUnder_append root []
  simpa using this

theorem mainServe_rooted (root : List String) (room name : String)
    (h : sanitizeRoom room ≠ "") :
    rootedUnder root (resolveFrom root (mainServeSegs room name)) = true := by
  have hpat : roomPatOk (sanitizeRoom room) = true := sanitizeRoom_patOk room h
  obtain ⟨hne, hchars⟩ := roomPatOk_spec _ hpat
  obtain ⟨hrdot, hrdd⟩ := roomPat_ne_dot _ hpat
  have hsplit : splitSlash (sanitizeRoom room) = [sanitizeRoom room] :=
    splitSlash_no_slash _ (fun c hc => (hchars c hc).1) hne
  unfold mainServeSegs
  rw [hsplit]
  by_cases hbe : (jsBasename name).data = []
  · have hbs : splitSlash (jsBasename name) = [] := by
      unfold splitSlash
      rw [hbe]
      rfl
    rw [hbs]
    simp only [List.append_nil]
    unfold resolveFrom
    simp [normWalk, hrdot, hrdd, List.take_length, rootedUnder_append]
  · have hbs : splitSlash (jsBasename name) = [jsBasename name] :=
      splitSlash_no_slash _ (jsBasename_no_slash name) hbe
    rw [hbs]
    by_cases hb1 : jsBasename name = "."
    · unfold resolveFrom
      simp [normWalk, hrdot, hrdd, hb1, List.take_length, rootedUnder_append]
    · by_cases hb2 : jsBasename name = ".."
      · unfold resolveFrom
        simp [normWalk, hrdot, hrdd, hb1, hb2, List.take_length, rootedUnder_append,
          rootedUnder_self]
      · unfold resolveFrom
        simp [normWalk, hrdot, hrdd, hb1, hb2, List.take_length, rootedUnder_append]

/-- C1: evaluation of the claim at the failing input. In the src/app.js
variant the name parameter is reduced to its basename, so the path the file
routes resolve for the traversal input stays under the data root; in the
src/unnamed/part_003 variant the same input is joined raw and the resolved
path leaves the data root, refuting the claim for that cited route. -/
theorem c1_serve_path_escape :
    rootedUnder ["srv", "data"]
        (resolveFrom ["srv", "data"] (mainServeSegs "x" "../../secret")) = true ∧
    rootedUnder ["srv", "data"]
        (resolveFrom ["srv", "data"] (part003ServeSegs "x" "../../secret")) = false := by
  decide

/-- C2: for every room-name input that fails the allowed pattern after
trimming and lowercasing (equivalently, whose sanitized form is empty), the
room-creation endpoint answers 400 (or 403 before that, without a valid
admin cookie) and leaves the filesystem state untouched, so no directory is
ever created for an unvalidated name. -/
theorem c2_create_room_rejects_invalid :
    ∀ (cfg : Config) (st : FsState) (cookies : List (String × String)) (s : String),
      sanitizeRoom s = "" →
      (∃ code msg, handle cfg ⟨.createRoom s, cookies⟩ st = (.err code msg, st, noFx) ∧
        (code = 400 ∨ code = 403)) ∧
      roomPatOk (jsToLower (jsTrim s)) = false := by
  intro cfg st cookies s hs
  constructor
  · by_cases ha : isAdminReq cookies = true
    · exact ⟨400, "bad room", by simp [handle, ha, hs], Or.inl rfl⟩
    · have ha2 : isAdminReq cookies = false := by
        revert ha
        cases isAdminReq cookies <;> simp
      exact ⟨403, "admin only", by simp [handle, ha2], Or.inr rfl⟩
  · by_cases hp : roomPatOk (jsToLower (jsTrim s)) = true
    · exfalso
      have heq : sanitizeRoom s = jsToLower (jsTrim s) := by simp [sanitizeRoom, hp]
      rw [heq] at hs
      rw [hs] at hp
      exact absurd hp (by decide)
    · revert hp
      cases roomPatOk (jsToLower (jsTrim s)) <;> simp

/-- C3: every mutating endpoint of the src/app.js variant (delete file,
delete room, create room) invoked without the admin cookie answers 403 and
returns the filesystem state unchanged: the admin check runs before any
store operation. -/
theorem c3_admin_gate :
    ∀ (cfg : Config) (st : FsState) (cookies : List (String × String)),
      isAdminReq cookies = false →
      (∀ r n, handle cfg ⟨.deleteFile r n, cookies⟩ st = (.err 403 "admin only", st, noFx)) ∧
      (∀ r c, handle cfg ⟨.deleteRoom r c, cookies⟩ st = (.err 403 "admin only", st, noFx)) ∧
      (∀ b, handle cfg ⟨.createRoom b, cookies⟩ st = (.err 403 "admin only", st, noFx)) := by
  intro cfg st cookies h
  refine ⟨fun r n => ?_, fun r c => ?_, fun b => ?_⟩ <;> simp [handle, h]

/-- C4 counterexample: in the src/unnamed/part_000 variant an admin request
to the room-deletion endpoint whose confirmation field does not equal the
room name still deletes the room and answers success, so the claim as
stated fails on that cited route. -/
theorem c4_part000_deletes_despite_mismatch :
    Part000.deleteRoomRoute [("admin", "1")] "photos" (some "nope")
        ⟨[("photos", [⟨"cat.png", true, 1024, 5⟩])]⟩ =
      (.ok (.text "ok"), (⟨[]⟩ : FsState)) ∧
    (FsState.mk []).hasRoom "photos" = false := by
  decide

/-- C4 amended: in the src/app.js variant an admin room-deletion request
whose trimmed confirmation field differs from the sanitized room name is
rejected with 400 and the state is unchanged, and the room is removed
exactly when the typed confirmation matches. -/
theorem c4_delete_room_confirmation :
    ∀ (cfg : Config) (st : FsState) (cookies : List (String × String))
      (roomP : String) (confirmF : Option String),
      isAdminReq cookies = true →
      (jsTrim (confirmF.getD "") ≠ sanitizeRoom roomP →
        handle cfg ⟨.deleteRoom roomP confirmF, cookies⟩ st =
          (.err 400 "confirmation mismatch", st, noFx)) ∧
      (jsTrim (confirmF.getD "") = sanitizeRoom roomP → sanitizeRoom roomP ≠ "" →
        handle cfg ⟨.deleteRoom roomP confirmF, cookies⟩ st =
          (.redirect "/manage", st.removeRoom (sanitizeRoom roomP), noFx)) := by
  intro cfg st cookies roomP confirmF hA
  constructor
  · intro hmm2
    simp [handle, hA, hmm2]
  · intro heq hne
    simp [handle, hA, heq, hne]

/-- C5 counterexample: in the src/app.js variant a POST to the upload
endpoint without a multipart file part is not rejected with 400: the
handler redirects back to the room view, refuting the claim for that cited
route. -/
theorem c5_upload_without_file_not_rejected :
    handle ⟨"letmein"⟩ ⟨.uploadFile "photos" none, []⟩ ⟨[("photos", [])]⟩ =
      (.redirect "/r/photos", ⟨[("photos", [])]⟩, noFx) ∧
    (handle ⟨"letmein"⟩ ⟨.uploadFile "photos" none, []⟩
        ⟨[("photos", [])]⟩).1.isRedirect = true := by
  decide

/-- C5 amended: in the src/unnamed/part_001 variant an upload without a
file part is rejected with 400 (no file, or bad room when the room name is
invalid) and an upload with a file part stores it and redirects to the room
view; the src/app.js variant redirects to the room view whether or not a
file part is present. -/
theorem c5_upload_file_field :
    (∀ (st : FsState) (roomP : String), sanitizeRoom roomP ≠ "" →
       Part001.uploadRoute roomP none st = (.err 400 "no file", st)) ∧
    (∀ (st : FsState) (roomP : String), sanitizeRoom roomP = "" →
       Part001.uploadRoute roomP none st = (.err 400 "bad room", st)) ∧
    (∀ (st : FsState) (roomP : String) (e : FEntry), sanitizeRoom roomP ≠ "" →
       Part001.uploadRoute roomP (some e) st =
         (.redirect ("/r/" ++ uriEncode (sanitizeRoom roomP)),
          (st.mkRoom (sanitizeRoom roomP)).addFile (sanitizeRoom roomP) e)) ∧
    (∀ (cfg : Config) (st : FsState) (cookies : List (String × String)) (roomP : String),
       handle cfg ⟨.uploadFile roomP none, cookies⟩ st =
         (.redirect ("/r/" ++ sanitizeRoom roomP), st, noFx)) := by
  refine ⟨fun st roomP h => ?_, fun st roomP h => ?_, fun st roomP e h => ?_,
    fun cfg st cookies roomP => ?_⟩
  · simp [Part001.uploadRoute, h]
  · simp [Part001.uploadRoute, h]
  · simp [Part001.uploadRoute, h]
  · simp [handle]

/-- C6 amended: listFiles of src/app.js returns the empty sequence when
the room directory is missing, is sorted newest-first by modification time,
and is a permutation of the metadata (name, size, mtime, inferred MIME
type) of exactly the regular-file entries of the room directory. -/
theorem c6_list_files :
    ∀ (st : FsState) (room : String),
      (st.hasRoom room = false → listFiles st room = []) ∧
      List.Sorted mtimeGe (listFiles st room) ∧
      List.Perm (listFiles st room)
        (((st.filesOf room).filter (fun e => e.isFile)).map metaOf) := by
  intro st room
  cases hfind : st.rooms.find? (fun p => p.1 == room) with
  | none =>
    have h1 : listFiles st room = [] := by simp [listFiles, hfind]
    have h2 : st.filesOf room = [] := by simp [FsState.filesOf, hfind]
    simp [h1, h2]
  | some p =>
    have h1 : listFiles st room =
        sortByMtimeDesc ((p.2.filter (fun e => e.isFile)).map metaOf) := by
      simp [listFiles, hfind]
    have h2 : st.filesOf room = p.2 := by simp [FsState.filesOf, hfind]
    refine ⟨?_, ?_, ?_⟩
    · intro hroom
      have hnone := find?_none_of_hasRoom_false st room hroom
      rw [hnone] at hfind
      cases hfind
    · rw [h1]
      exact List.sorted_insertionSort mtimeGe _
    · rw [h1, h2]
      exact List.perm_insertionSort mtimeGe _

/-- C6 counterexample: listFiles of src/unnamed/part_000 has no
regular-file filter, so on a room holding a subdirectory entry the listing
includes that non-file entry, refuting the only-regular-files part of the
claim for that cited variant. -/
theorem c6_part000_lists_directories :
    Part000.listFiles ⟨[("r", [⟨"a.png", true, 5, 3⟩, ⟨"sub", false, 0, 9⟩])]⟩ "r" =
      [⟨"sub", 0, 9, "application/octet-stream"⟩, ⟨"a.png", 5, 3, "image/png"⟩] ∧
    (⟨"sub", false, 0, 9⟩ : FEntry) ∈
      (FsState.mk [("r", [⟨"a.png", true, 5, 3⟩, ⟨"sub", false, 0, 9⟩])]).filesOf "r" ∧
    (⟨"sub", false, 0, 9⟩ : FEntry).isFile = false ∧
    (⟨"sub", 0, 9, "application/octet-stream"⟩ : FileMeta) ∈
      Part000.listFiles ⟨[("r", [⟨"a.png", true, 5, 3⟩, ⟨"sub", false, 0, 9⟩])]⟩ "r" := by
  decide

/-- C7: file deletion is idempotent in both cited variants. With a valid
admin credential the delete handler always answers with a redirect, running
it a second time changes nothing, and deleting an already-absent file
succeeds and leaves the state unchanged. -/
theorem c7_delete_file_idem :
    (∀ (cfg : Config) (st : FsState) (cookies : List (String × String)) (r n : String),
       isAdminReq cookies = true →
       (handle cfg ⟨.deleteFile r n, cookies⟩ st).1 =
         .redirect ("/r/" ++ sanitizeRoom r) ∧
       handle cfg ⟨.deleteFile r n, cookies⟩
           (handle cfg ⟨.deleteFile r n, cookies⟩ st).2.1 =
         handle cfg ⟨.deleteFile r n, cookies⟩ st) ∧
    (∀ (cfg : Config) (st : FsState) (cookies : List (String × String)) (r n : String),
       isAdminReq cookies = true → st.wf →
       (∀ e ∈ st.filesOf (sanitizeRoom r), ¬(e.name = jsBasename n ∧ e.isFile = true)) →
       handle cfg ⟨.deleteFile r n, cookies⟩ st =
         (.redirect ("/r/" ++ sanitizeRoom r), st, noFx)) ∧
    (∀ (cfg : Config) (qa : Option String) (r n : String) (st : FsState),
       qa.getD "" = cfg.adminPass →
       (SrcSrc.deleteFileRoute cfg qa r n st).1.isRedirect = true ∧
       SrcSrc.deleteFileRoute cfg qa r n
           (SrcSrc.deleteFileRoute cfg qa r n st).2 =
         SrcSrc.deleteFileRoute cfg qa r n st) ∧
    (∀ (cfg : Config) (qa : Option String) (r n : String) (st : FsState),
       qa.getD "" = cfg.adminPass → st.wf →
       (∀ e ∈ st.filesOf (safeBase r), ¬(e.name = safeBase n ∧ e.isFile = true)) →
       (SrcSrc.deleteFileRoute cfg qa r n st).2 = st) := by
  refine ⟨?_, ?_, ?_, ?_⟩
  · intro cfg st cookies r n hA
    constructor
    · simp [handle, hA]
    · simp [handle, hA, FsState.removeFile_idem]
  · intro cfg st cookies r n hA hwf habs
    have := FsState.removeFile_absent st (sanitizeRoom r) (jsBasename n) hwf habs
    simp [handle, hA, this]
  · intro cfg qa r n st hq
    constructor
    · simp [SrcSrc.deleteFileRoute, hq, Resp.isRedirect]
    · simp [SrcSrc.deleteFileRoute, hq, FsState.removeFile_idem]
  · intro cfg qa r n st hq hwf habs
    have := FsState.removeFile_absent st (safeBase r) (safeBase n) hwf habs
    simp [SrcSrc.deleteFileRoute, hq, this]

/-- C8 counterexample: in the src/app.js variant an unconfirmed request to
an existing gated room is answered by serving the interstitial page
directly with no HTTP redirect, refuting the response-is-a-redirect part of
the claim for that cited route. -/
theorem c8_not_a_redirect :
    (handle ⟨"letmein"⟩ ⟨.roomPage "photos", []⟩ ⟨[("photos", [])]⟩).1 =
      .ok (.agePage "photos") ∧
    (handle ⟨"letmein"⟩ ⟨.roomPage "photos", []⟩
        ⟨[("photos", [])]⟩).1.isRedirect = false := by
  decide

/-- C8 amended: unconfirmed requests to gated room paths never see the
room listing. The src/src/app.js middleware answers a redirect to the age
interstitial carrying the original URL; the src/app.js room route serves
the interstitial body directly; and in the src/app.js dispatcher the only
route that ever sets an age cookie is the explicit age-confirmation
endpoint. -/
theorem c8_age_gate :
    (∀ (p u : String) (cs : List (String × String)),
       strHasLead p "/room/" = true →
       ¬(cookieVal cs "age_ok" = some "1") →
       SrcSrc.ageGate p u cs = some ("/age?redirect=" ++ uriEncode u)) ∧
    (∀ (cfg : Config) (st : FsState) (cookies : List (String × String)) (roomP : String),
       sanitizeRoom roomP ≠ "" → st.hasRoom (sanitizeRoom roomP) = true →
       ¬(cookieVal cookies (ageCookieName (sanitizeRoom roomP)) = some "1") →
       handle cfg ⟨.roomPage roomP, cookies⟩ st =
         (.ok (.agePage (sanitizeRoom roomP)), st, noFx)) ∧
    (∀ (cfg : Config) (rt : Route) (cookies : List (String × String)) (st : FsState),
       ((handle cfg ⟨rt, cookies⟩ st).2.2.ageSet).isSome = true →
       ∃ r, rt = Route.ageOk r) := by
  refine ⟨?_, ?_, ?_⟩
  · intro p u cs hlead hck
    simp only [strHasLead] at hlead
    obtain ⟨t, ht⟩ := (leadChars_iff_append _ _).mp hlead
    have hraw : strHasLead p "/raw/" = false := by
      unfold strHasLead
      rw [ht]
      rfl
    have hage : strHasLead p "/age" = false := by
      unfold strHasLead
      rw [ht]
      rfl
    have hbeq : (cookieVal cs "age_ok" == some "1") = false := beq_eq_false_iff_ne.mpr hck
    simp only [strHasLead] at hraw hage
    simp [SrcSrc.ageGate, strHasLead, hraw, hage, hbeq, hlead]
  · intro cfg st cookies roomP hne hhas hck
    have hbeq : (cookieVal cookies (ageCookieName (sanitizeRoom roomP)) == some "1") = false :=
      beq_eq_false_iff_ne.mpr hck
    simp [handle, hne, hhas, hbeq]
  · intro cfg rt cookies st h
    cases rt with
    | ageOk r => exact ⟨r, rfl⟩
    | home => simp [handle, noFx] at h
    | adminPage =>
      simp only [handle] at h
      split at h <;> simp [noFx] at h
    | adminLogin pass =>
      simp only [handle] at h
      split at h <;> simp [noFx, adminSetFx] at h
    | adminLogout => simp [handle, adminClearFx] at h
    | manage =>
      simp only [handle] at h
      split at h <;> simp [noFx] at h
    | createRoom b =>
      simp only [handle] at h
      split at h <;> [skip; split at h] <;> simp [noFx] at h
    | roomPage room =>
      simp only [handle] at h
      split at h <;> [skip; split at h] <;> simp [noFx] at h
    | uploadFile room file =>
      simp only [handle] at h
      split at h <;> [simp [noFx] at h; split at h <;> simp [noFx] at h]
    | serveFile room name =>
      simp only [handle] at h
      split at h <;> simp [noFx] at h
    | downloadFile room name =>
      simp only [handle] at h
      split at h <;> simp [noFx] at h
    | deleteFile room name =>
      simp only [handle] at h
      split at h <;> simp [noFx] at h
    | deleteRoom room confirmF =>
      simp only [handle] at h
      split at h <;> [skip; split at h] <;> simp [noFx] at h
    | debugClearAge room => simp [handle, ageClearFx] at h


/-- C9: the cookie-based admin check accepts exactly the requests whose
admin cookie equals the constant string of value one; every route except
the admin login behaves identically under any two configured secrets; and
presenting that cookie value makes the delete handler perform its deletion,
so the cookie alone suffices for admin capability. -/
theorem c9_admin_cookie_check :
    (∀ cs : List (String × String), isAdminReq cs = true ↔ cookieVal cs "admin" = some "1") ∧
    (∀ (c1 c2 : Config) (req : Request) (st : FsState),
       routeReadsSecret req.route = false → handle c1 req st = handle c2 req st) ∧
    (∀ (cfg : Config) (st : FsState) (cookies : List (String × String)) (r n : String),
       isAdminReq cookies = true →
       handle cfg ⟨.deleteFile r n, cookies⟩ st =
         (.redirect ("/r/" ++ sanitizeRoom r),
          st.removeFile (sanitizeRoom r) (jsBasename n), noFx)) := by
  refine ⟨?_, ?_, ?_⟩
  · intro cs
    simp [isAdminReq]
  · intro c1 c2 req st h
    obtain ⟨rt, cs⟩ := req
    cases rt <;> first
      | rfl
      | (exfalso; simp [routeReadsSecret] at h)
  · intro cfg st cookies r n hA
    simp [handle, hA]

/-- C10: in the src/unnamed/part_003 and src/src/app.js variants a GET of
the room page for a validly named absent room creates the room directory as
a side effect and never answers 404 for a validly named room. -/
theorem c10_room_page_creates :
    ∀ (st : FsState) (room : String),
      isValidRoom room = true →
      ((Part003.roomPageRoute room st).2 = st.mkRoom room ∧
       (Part003.roomPageRoute room st).2.hasRoom room = true ∧
       ∀ code msg, (Part003.roomPageRoute room st).1 ≠ .err code msg) ∧
      (∀ nameP : String, safeBase nameP ≠ "" →
        (SrcSrc.roomPageRoute nameP false st).2 = st.mkRoom (safeBase nameP) ∧
        (SrcSrc.roomPageRoute nameP false st).2.hasRoom (safeBase nameP) = true) := by
  intro st room hv
  constructor
  · refine ⟨?_, ?_, ?_⟩
    · simp [Part003.roomPageRoute, hv]
    · simp [Part003.roomPageRoute, hv, FsState.hasRoom_mkRoom]
    · intro code msg
      simp [Part003.roomPageRoute, hv]
  · intro nameP hne
    constructor
    · simp [SrcSrc.roomPageRoute, hne]
    · simp [SrcSrc.roomPageRoute, hne, FsState.hasRoom_mkRoom]

/-- C2 witness: the theorem applied to a concrete traversal-style room
name with an admin cookie present. -/
theorem c2_witness :
    (∃ code msg, handle ⟨"letmein"⟩ ⟨.createRoom "../etc", [("admin", "1")]⟩ ⟨[]⟩ =
        (.err code msg, ⟨[]⟩, noFx) ∧ (code = 400 ∨ code = 403)) ∧
    roomPatOk (jsToLower (jsTrim "../etc")) = false :=
  c2_create_room_rejects_invalid ⟨"letmein"⟩ ⟨[]⟩ [("admin", "1")] "../etc" (by decide)

/-- C3 witness: the theorem applied to a concrete file-deletion request
carrying no cookies. -/
theorem c3_witness :
    handle ⟨"letmein"⟩ ⟨.deleteFile "photos" "cat.png", []⟩ ⟨[]⟩ =
      (.err 403 "admin only", ⟨[]⟩, noFx) :=
  (c3_admin_gate ⟨"letmein"⟩ ⟨[]⟩ [] (by decide)).1 "photos" "cat.png"

/-- C4 witness: the amended theorem applied to a concrete admin request
with a mismatched confirmation field. -/
theorem c4_witness :
    handle ⟨"letmein"⟩ ⟨.deleteRoom "photos" (some "nope"), [("admin", "1")]⟩
        ⟨[("photos", [])]⟩ =
      (.err 400 "confirmation mismatch", ⟨[("photos", [])]⟩, noFx) :=
  (c4_delete_room_confirmation ⟨"letmein"⟩ ⟨[("photos", [])]⟩ [("admin", "1")] "photos"
      (some "nope") (by decide)).1 (by decide)

/-- C5 witness: the amended theorem applied to a concrete upload request
without a file part. -/
theorem c5_witness :
    Part001.uploadRoute "photos" none ⟨[]⟩ = (.err 400 "no file", ⟨[]⟩) :=
  c5_upload_file_field.1 ⟨[]⟩ "photos" (by decide)

/-- C6 witness: the theorem applied to a concrete state without the
requested room. -/
theorem c6_witness : listFiles (⟨[]⟩ : FsState) "nope" = [] :=
  (c6_list_files ⟨[]⟩ "nope").1 (by decide)

/-- C7 witness: the theorem applied to a concrete admin deletion of an
absent file in a well-formed state. -/
theorem c7_witness :
    handle ⟨"letmein"⟩ ⟨.deleteFile "photos" "gone.png", [("admin", "1")]⟩
        ⟨[("photos", [])]⟩ =
      (.redirect "/r/photos", ⟨[("photos", [])]⟩, noFx) :=
  c7_delete_file_idem.2.1 ⟨"letmein"⟩ ⟨[("photos", [])]⟩ [("admin", "1")] "photos" "gone.png"
    (by decide) (by decide) (by decide)

/-- C8 witness: the amended theorem applied to a concrete unconfirmed
request to a room path under the src/src/app.js middleware. -/
theorem c8_witness :
    SrcSrc.ageGate "/room/photos" "/room/photos" [] =
      some ("/age?redirect=" ++ uriEncode "/room/photos") :=
  c8_age_gate.1 "/room/photos" "/room/photos" [] (by decide) (by decide)

/-- C9 witness: the theorem applied to the home route under two distinct
configured secrets. -/
theorem c9_witness :
    handle ⟨"alpha"⟩ ⟨.home, []⟩ ⟨[]⟩ = handle ⟨"beta"⟩ ⟨.home, []⟩ ⟨[]⟩ :=
  c9_admin_cookie_check.2.1 ⟨"alpha"⟩ ⟨"beta"⟩ ⟨.home, []⟩ ⟨[]⟩ (by decide)

/-- C10 witness: the theorem applied to a concrete valid room name and an
empty data root. -/
theorem c10_witness :
    (Part003.roomPageRoute "photos" ⟨[]⟩).2.hasRoom "photos" = true :=
  ((c10_room_page_creates ⟨[]⟩ "photos" (by decide)).1).2.1
